import Mathlib

/-!
Verification of the LLM prompt generator plugin (`LLMPrompt.py`).

The plugin's core logic is embedded shallowly:

* texts, identifiers and paths are `List Char` (ASCII; Python's `re` word
  characters `[A-Za-z0-9_]` are modelled by `isWordChar`);
* `re.findall`/`re.search` of the word-boundary pattern `\b<ident>\b`
  (with `ident` a word-character token, possibly empty: exactly what
  `_extract_identifiers` or the `{""}` fallback produce) are modelled by a
  left-to-right scanner mirroring the regex engine: try a match at each
  position, skip past a successful match, advance one character past a
  zero-width match;
* scores are rationals (`len(txt)/1024` is exact rational arithmetic here;
  Python uses binary floats, but every quantity in the claims is exactly
  representable);
* the file system is a partial map `List Char → Option (List Char)`
  (`none` models `os.path.isfile` failing or `open`/`read` raising);
* Python's stable `list.sort(key=lambda t: -t[1])` is modelled by
  `List.mergeSort` with the boolean relation `b.score ≤ a.score`.
-/

/-- Python `\w` on ASCII input: letters, digits, underscore. -/
def isWordChar (c : Char) : Bool :=
  c.isAlpha || c.isDigit || c = '_'

/-- First character of the identifier token pattern `[A-Za-z_]`. -/
def isIdentStart (c : Char) : Bool :=
  c.isAlpha || c = '_'

/-- Whether `\b<ident>\b` matches at the current position of the scan,
where `suffix` is the rest of the text and `prevWord` says whether the
character just before the current position is a word character (`false` at
the start of the text).  `ident` is a run of word characters or empty
(`re.escape` is the identity on these); for the empty identifier the
pattern is the zero-width `\b\b`, a word boundary at the current position. -/
def matchHere (ident : List Char) (prevWord : Bool) (suffix : List Char) : Bool :=
  let currWord := isWordChar (suffix.getD 0 ' ')
  let lastWord := match ident.reverse with
    | [] => prevWord
    | c :: _ => isWordChar c
  let afterWord := isWordChar (suffix.getD ident.length ' ')
  List.isPrefixOf ident suffix && (prevWord != currWord) && (lastWord != afterWord)

/-- The scan of `re.finditer`: matches are counted position by position,
left to right.  This equals the engine's non-overlapping count for the
identifiers this program searches for: a second occurrence of a
word-character identifier can never start strictly inside a first one
(every position inside an occurrence is preceded by a word character, so
`\b` fails there), and a match of the empty identifier is zero-width, where
the engine itself advances exactly one character. -/
def findallCountAux (ident : List Char) (prevWord : Bool) : List Char → Nat
  | [] => if matchHere ident prevWord [] then 1 else 0
  | c :: cs =>
    (if matchHere ident prevWord (c :: cs) then 1 else 0)
      + findallCountAux ident (isWordChar c) cs

/-- Model of `len(re.findall(rf"\b<ident>\b", txt))` (line 177). -/
def countOccurrences (ident txt : List Char) : Nat :=
  findallCountAux ident false txt

/-- Model of `re.search(rf"\b<ident>\b", txt)` succeeding (line 174): the
search succeeds exactly when the scan finds at least one match. -/
def reSearch (ident txt : List Char) : Bool :=
  decide (0 < countOccurrences ident txt)

/-- Count `distinct_hits` (lines 173-175): number of identifiers with at least one
word-boundary match in the file text.  The Python set is modelled as a list
(its iteration order); `sum(1 for ident in identifiers if ...)` is the
length of the filtered list. -/
def distinct_hits (idents : List (List Char)) (txt : List Char) : Nat :=
  (idents.filter (fun ident => reSearch ident txt)).length

/-- Count `total_hits` (lines 176-179): sum over identifiers of their occurrence
counts. -/
def total_hits (idents : List (List Char)) (txt : List Char) : Nat :=
  (idents.map (fun ident => countOccurrences ident txt)).sum

/-- Model of `os.path.dirname` (posix): everything before the last `/`, with trailing
slashes stripped unless the result is all slashes; `""` when there is no
slash. -/
def dirname (p : List Char) : List Char :=
  let i : Nat :=
    match (p.reverse.findIdx? (· = '/')) with
    | some k => p.length - k
    | none => 0
  let head := p.take i
  if head ≠ [] ∧ ¬ head.all (· = '/') then
    (head.reverse.dropWhile (· = '/')).reverse
  else head

/-- The relevance score (lines 180-185):
`100*distinct_hits + 2*total_hits + (20 if same dir) - len(txt)/1024`. -/
def score (idents : List (List Char)) (originDir : List Char)
    (path txt : List Char) : ℚ :=
  100 * distinct_hits idents txt + 2 * total_hits idents txt
    + (if dirname path = originDir then 20 else 0)
    - (txt.length : ℚ) / 1024

/-- The scoring loop (lines 165-186): candidates that are not readable
files (`fs p = none` models `os.path.isfile` failing or `open`/`read`
raising) are skipped by `continue`; readable ones contribute
`(path, score, contents)`. -/
def scoreCandidates (fs : List Char → Option (List Char))
    (idents : List (List Char)) (originDir : List Char)
    (paths : List (List Char)) : List (List Char × ℚ × List Char) :=
  paths.filterMap (fun p => (fs p).map (fun txt =>
    (p, score idents originDir p txt, txt)))

/-- Model of `scored.sort(key=lambda t: -t[1])` (line 188): stable sort by
descending score. -/
def rankCandidates (fs : List Char → Option (List Char))
    (idents : List (List Char)) (originDir : List Char)
    (paths : List (List Char)) : List (List Char × ℚ × List Char) :=
  (scoreCandidates fs idents originDir paths).mergeSort
    (fun a b => decide (b.2.1 ≤ a.2.1))

/-- Helper for `wordRuns`: `acc` holds the reversed current run of word
characters. -/
def wordRunsAux (acc : List Char) : List Char → List (List Char)
  | [] => if acc = [] then [] else [acc.reverse]
  | c :: cs =>
    if isWordChar c then wordRunsAux (c :: acc) cs
    else if acc = [] then wordRunsAux [] cs
    else acc.reverse :: wordRunsAux [] cs

/-- Maximal runs of word characters of a text, in order. -/
def wordRuns (cs : List Char) : List (List Char) :=
  wordRunsAux [] cs

/-- The keyword blacklist of `_extract_identifiers` (lines 48-77). -/
def blacklist : List (List Char) :=
  ["if".data, "for".data, "while".data, "switch".data, "case".data,
   "else".data, "return".data, "break".data, "continue".data, "try".data,
   "except".data, "catch".data, "finally".data, "def".data, "class".data,
   "struct".data, "enum".data, "namespace".data, "public".data,
   "private".data, "protected".data, "import".data, "from".data,
   "package".data, "do".data, "new".data, "delete".data, "this".data]

/-- Model of Python `str.isdigit` on ASCII text: non-empty and all digits. -/
def pyIsDigit (t : List Char) : Bool :=
  decide (t ≠ []) && t.all Char.isDigit

/-- Model of `_extract_identifiers` (lines 46-79).  The findall of
`\b[A-Za-z_][A-Za-z0-9_]*\b` returns exactly the maximal word-character
runs that begin with a letter or underscore (a run led by a digit is never
matched, not even partially: every inner position of a run is preceded by a
word character, so the leading `\b` fails there); `set(...)` is modelled by
`dedup`, and the comprehension filters the blacklist and pure digit
tokens. -/
def extractIdentifiers (code : List Char) : List (List Char) :=
  (((wordRuns code).filter (fun r => isIdentStart (r.getD 0 ' '))).dedup).filter
    (fun t => decide (t ∉ blacklist) && !(pyIsDigit t))

/-- Lines 153-155 of `run`: `identifiers = _extract_identifiers(...)`
followed by the `{""}` fallback when the set is empty. -/
def identifiersWithFallback (code : List Char) : List (List Char) :=
  let ids := extractIdentifiers code
  if ids = [] then [[]] else ids

/-- Whether the literal `lit` occurs at position `p` of `txt`. -/
def litAt (txt : List Char) (p : Nat) (lit : List Char) : Bool :=
  List.isPrefixOf lit (txt.drop p)

/-- Python `\s` on ASCII input: space, tab, newline, carriage return,
vertical tab, form feed. -/
def isPySpace (c : Char) : Bool :=
  c = ' ' || c = '\t' || c = '\n' || c = '\r' || c = Char.ofNat 11 || c = Char.ofNat 12

/-- Length of the maximal whitespace run starting at position `p`
(the greedy `\s*`; since none of the literals that follow it in the
patterns begin with a whitespace character, maximal munch is exact). -/
def wsCount (txt : List Char) (p : Nat) : Nat :=
  ((txt.drop p).takeWhile isPySpace).length

/-- The maximal `\w+` run starting at position `p` (greedy; every
continuation in the patterns starts with a non-word character, so maximal
munch is exact). -/
def takeWord (txt : List Char) (p : Nat) : List Char :=
  (txt.drop p).takeWhile isWordChar

/-- Character at position `p`, with a NUL default that matches none of the
literal characters the patterns compare against. -/
def charAt (txt : List Char) (p : Nat) : Char :=
  txt.getD p (Char.ofNat 0)

/-- Class names matched by the Python/Ruby pattern
`re.compile(r"^\s*class\s+(\w+)")` (line 114).  The pattern is compiled
WITHOUT `re.M`, so `^` matches only at position 0 of the text: the sole
possible match is a `class` keyword preceded only by whitespace (which may
include newlines) from the very start of the text. -/
def pyClassKeys (txt : List Char) : List (List Char) :=
  let p1 := wsCount txt 0
  if litAt txt p1 "class".data then
    let w := wsCount txt (p1 + 5)
    if 0 < w then
      let nm := takeWord txt (p1 + 5 + w)
      if nm ≠ [] then [nm] else []
    else []
  else []

/-- One attempted match of the Python/Ruby definition pattern
`^\s*def\s+(\w+)\s*\(([^)]*)\)(?:\s*->\s*([^:]+))?` (re.M, lines 115-117)
at position `p`: `^` holds at position 0 or right after a newline; the
optional return-type group, when it matches, extends the match (affecting
where the non-overlapping scan resumes) but its capture is unused.
Returns the end position and the (name, args) captures. -/
def pyFuncStep (txt : List Char) (p : Nat) : Option (Nat × List Char × List Char) :=
  if p = 0 ∨ charAt txt (p - 1) = '\n' then
    let q1 := p + wsCount txt p
    if litAt txt q1 "def".data then
      let w := wsCount txt (q1 + 3)
      if 0 < w then
        let nm := takeWord txt (q1 + 3 + w)
        if nm ≠ [] then
          let q2 := q1 + 3 + w + nm.length + wsCount txt (q1 + 3 + w + nm.length)
          if charAt txt q2 = '(' then
            let args := (txt.drop (q2 + 1)).takeWhile (· ≠ ')')
            let q3 := q2 + 1 + args.length
            if charAt txt q3 = ')' then
              let q4 := q3 + 1
              let r1 := q4 + wsCount txt q4
              if litAt txt r1 "->".data then
                let body := (txt.drop (r1 + 2)).takeWhile (· ≠ ':')
                if body ≠ [] then some (r1 + 2 + body.length, nm, args)
                else some (q4, nm, args)
              else some (q4, nm, args)
            else none
          else none
        else none
      else none
    else none
  else none

/-- One attempted match of `(\w+)\s*\(([^)]*)\)` at position `p` (the
common tail of the brace-family and generic function patterns). -/
def funcCallTail (txt : List Char) (p : Nat) : Option (Nat × List Char × List Char) :=
  let nm := takeWord txt p
  if nm ≠ [] then
    let q2 := p + nm.length + wsCount txt (p + nm.length)
    if charAt txt q2 = '(' then
      let args := (txt.drop (q2 + 1)).takeWhile (· ≠ ')')
      let q3 := q2 + 1 + args.length
      if charAt txt q3 = ')' then some (q3 + 1, nm, args) else none
    else none
  else none

/-- One attempted match of `\bclass\s+(\w+)` (lines 119 and 122, identical
for the brace and generic families) at position `p`. -/
def classAnywhereStep (txt : List Char) (p : Nat) : Option (Nat × List Char) :=
  if (p = 0 || !isWordChar (charAt txt (p - 1))) && litAt txt p "class".data then
    let w := wsCount txt (p + 5)
    if 0 < w then
      let nm := takeWord txt (p + 5 + w)
      if nm ≠ [] then some (p + 5 + w + nm.length, nm) else none
    else none
  else none

/-- Match of `(?:function\s+)?(\w+)\s*\(([^)]*)\)` at position `p`: the
engine first tries to consume a `function ` prefix and, if the rest then
fails, backtracks to the empty optional group (so `function (x)` captures
the name `function`). -/
def braceFuncTail (txt : List Char) (p : Nat) : Option (Nat × List Char × List Char) :=
  if litAt txt p "function".data ∧ 0 < wsCount txt (p + 8) then
    match funcCallTail txt (p + 8 + wsCount txt (p + 8)) with
    | some r => some r
    | none => funcCallTail txt p
  else funcCallTail txt p

/-- One attempted match of the brace-family function pattern
`(?:^|\s)(?:function\s+)?(\w+)\s*\(([^)]*)\)` (line 120, no `re.M`, so `^`
only matches at position 0) at position `p`:  at position 0 the zero-width
`^` alternative is tried first, then the one-character `\s` alternative. -/
def braceFuncStep (txt : List Char) (p : Nat) : Option (Nat × List Char × List Char) :=
  if p = 0 then
    match braceFuncTail txt 0 with
    | some r => some r
    | none => if isPySpace (charAt txt 0) then braceFuncTail txt 1 else none
  else if isPySpace (charAt txt p) then braceFuncTail txt (p + 1) else none

/-- One attempted match of the generic function pattern
`\b(\w+)\s*\(([^)]*)\)` (line 123) at position `p`. -/
def genericFuncStep (txt : List Char) (p : Nat) : Option (Nat × List Char × List Char) :=
  if p = 0 || !isWordChar (charAt txt (p - 1)) then funcCallTail txt p else none

/-- The scan of `re.finditer`: try positions left to right, resume after
the end of each match (or one position further when the match is empty).
The fuel only bounds the recursion; `finditer` supplies `len + 1`, which is
exact because every iteration advances the position by at least one and the
scan stops once the position passes `len`. -/
def finditerAux (step : Nat → Option (Nat × α)) (len : Nat) : Nat → Nat → List α
  | 0, _ => []
  | fuel + 1, p =>
    if p ≤ len then
      match step p with
      | none => finditerAux step len fuel (p + 1)
      | some (e, a) => a :: finditerAux step len fuel (max e (p + 1))
    else []

/-- All matches of a pattern over a text of length `len`, in scan order. -/
def finditer (step : Nat → Option (Nat × α)) (len : Nat) : List α :=
  finditerAux step len (len + 1) 0

/-- The definition map: insertion-ordered association list modelling the
Python dict `classes`. -/
abbrev DefMap := List (List Char × List (List Char × List Char))

/-- Model of `classes.setdefault(m.group(1), [])` (line 126). -/
def dictSetdefaultEmpty (d : DefMap) (k : List Char) : DefMap :=
  if d.any (fun kv => kv.1 = k) then d else d ++ [(k, [])]

/-- Model of `classes.setdefault("", []).append((name, f"({args})"))`
(line 132). -/
def dictAppendFunc (d : DefMap) (nm args : List Char) : DefMap :=
  let entry := (nm, '(' :: (args ++ [')']))
  if d.any (fun kv => kv.1 = []) then
    d.map (fun kv => if kv.1 = [] then (kv.1, kv.2 ++ [entry]) else kv)
  else d ++ [([], [entry])]

/-- Model of `_extract_definitions` (lines 110-134). -/
def extractDefinitions (txt : List Char) (language : String) : DefMap :=
  let isPy := language = "python" ∨ language = "ruby"
  let isBrace := language = "javascript" ∨ language = "typescript"
    ∨ language = "php" ∨ language = "java" ∨ language = "csharp"
  let classKeys : List (List Char) :=
    if isPy then pyClassKeys txt
    else finditer (classAnywhereStep txt) txt.length
  let funcs : List (List Char × List Char) :=
    if isPy then finditer (pyFuncStep txt) txt.length
    else if isBrace then finditer (braceFuncStep txt) txt.length
    else finditer (genericFuncStep txt) txt.length
  let d0 := classKeys.foldl dictSetdefaultEmpty []
  funcs.foldl (fun d f =>
    if d.any (fun kv => kv.1 = f.1) then d
    else dictAppendFunc d f.1 f.2) d0

/-- Extension part of `os.path.splitext` (posix): the suffix of the
basename from its last dot, unless every character before that dot is
itself a dot (so `.bashrc` has no extension). -/
def splitextExt (p : List Char) : List Char :=
  let base := (p.reverse.takeWhile (· ≠ '/')).reverse
  match base.reverse.findIdx? (· = '.') with
  | none => []
  | some k =>
    let dotIdx := base.length - 1 - k
    if (base.take dotIdx).any (· ≠ '.') then base.drop dotIdx else []

/-- Model of `_syntax_from_extension` (lines 82-102). -/
def syntaxFromExtension (path : List Char) : String :=
  let e := (splitextExt path).map Char.toLower
  if e = ".py".data then "python"
  else if e = ".js".data then "javascript"
  else if e = ".ts".data then "typescript"
  else if e = ".jsx".data then "javascript"
  else if e = ".tsx".data then "typescript"
  else if e = ".java".data then "java"
  else if e = ".go".data then "go"
  else if e = ".cpp".data then "cpp"
  else if e = ".cc".data then "cpp"
  else if e = ".c".data then "c"
  else if e = ".h".data then "cpp"
  else if e = ".cs".data then "csharp"
  else if e = ".rb".data then "ruby"
  else if e = ".php".data then "php"
  else if e = ".html".data then "html"
  else if e = ".css".data then "css"
  else if e = ".json".data then "json"
  else if e = ".sh".data then "bash"
  else ""

/-- Length of the longest common prefix of two component lists
(`genericpath.commonprefix` applied to the two split paths). -/
def commonPrefixLength : List (List Char) → List (List Char) → Nat
  | a :: as, b :: bs => if a = b then 1 + commonPrefixLength as bs else 0
  | _, _ => 0

/-- Model of `os.path.relpath(path, start)` (posix) for absolute,
already-normalized inputs (Sublime hands the plugin absolute paths, so the
`abspath` normalization inside `relpath` is the identity; splitting on `/`
and dropping empty components reproduces its component lists). -/
def relpath (path start : List Char) : List Char :=
  let pl := (path.splitOn '/').filter (· ≠ [])
  let sl := (start.splitOn '/').filter (· ≠ [])
  let i := commonPrefixLength pl sl
  let rel := List.replicate (sl.length - i) "..".data ++ pl.drop i
  if rel = [] then ".".data else List.intercalate "/".data rel

/-- The overview loop of `_finalise_prompt` (lines 232-249): per related
file, extract definitions; skip files with an empty map; emit a class line
plus member lines for every class key that is in the identifier set, and a
function line for every free function (empty-string key) whose name is in
the identifier set. -/
def overviewLines (related : List (List Char × List Char))
    (idents : List (List Char)) (projectRoot : List Char) : List (List Char) :=
  related.flatMap (fun pt =>
    let defs := extractDefinitions pt.2 (syntaxFromExtension pt.1)
    if defs = [] then []
    else
      let rel := relpath pt.1 projectRoot
      defs.flatMap (fun cm =>
        if cm.1 ≠ [] ∧ cm.1 ∉ idents then []
        else if cm.1 ≠ [] then
          ("- class ".data ++ cm.1 ++ "  ←  ".data ++ rel)
            :: cm.2.map (fun ns => "  • ".data ++ ns.1 ++ ns.2)
        else
          cm.2.filterMap (fun ns =>
            if ns.1 ∈ idents then
              some ("- function ".data ++ ns.1 ++ ns.2 ++ "  ←  ".data ++ rel)
            else none)))

/-- Model of `textwrap.dedent` on the overview text (line 275).  The
common whitespace margin is computed over all non-blank lines, and every
emitted overview block contains a line starting with `-` (member `•` lines
only ever follow their class line), so the margin is empty and `dedent` is
the identity on every text this program passes to it. -/
def textwrapDedent (s : List Char) : List Char := s

/-- The prompt text composed by `_finalise_prompt` (lines 252-278). -/
def composePrompt (selLang snippet : List Char)
    (related : List (List Char × List Char)) (idents : List (List Char))
    (projectRoot : List Char) : List Char :=
  let overview_text :=
    List.intercalate "\n".data (overviewLines related idents projectRoot)
  let part1 := "<user_question>\n# Your question\n\n</user_question>\n\n".data
  let fileMap := "<file_map>\n".data
    ++ ((List.range related.length).zip related).flatMap (fun ir =>
          (toString (ir.1 + 1)).data ++ ". ".data
            ++ relpath ir.2.1 projectRoot ++ "\n".data)
    ++ "</file_map>\n\n".data
  let selBlock := "<file_contents path=\"<selection>\">\n```".data
    ++ selLang ++ "\n".data ++ snippet ++ "\n```\n</file_contents>\n\n".data
  let fileBlocks := related.flatMap (fun pt =>
    "<file_contents path=\"".data ++ relpath pt.1 projectRoot
      ++ "\">\n```".data ++ (syntaxFromExtension pt.1).data ++ "\n".data
      ++ pt.2 ++ "\n```\n</file_contents>\n\n".data)
  let overviewBlock :=
    if overview_text ≠ [] then
      "<overview>\n".data ++ textwrapDedent overview_text
        ++ "\n</overview>\n".data
    else []
  part1 ++ fileMap ++ selBlock ++ fileBlocks ++ overviewBlock

/-- What `run` does once the candidates are scored and sorted
(lines 188-197). -/
inductive GenerateNext where
  | composed (prompt : List Char)
  | picker (included : List Bool)
deriving DecidableEq

/-- Lines 188-197 of `run`: with no scored candidate, compose the prompt
immediately with zero related files (after a non-fatal status message);
otherwise open the picker with the first five rows pre-included. -/
def generateAfterScoring (selLang snippet : List Char)
    (idents : List (List Char)) (projectRoot : List Char)
    (ranked : List (List Char × ℚ × List Char)) : GenerateNext :=
  if ranked = [] then
    .composed (composePrompt selLang snippet [] idents projectRoot)
  else
    .picker ((List.range ranked.length).map (fun i => decide (i < 5)))

/-- The picker's toggle transition (line 213):
`included[idx] = not included[idx]`. -/
def toggleIncluded (included : List Bool) (idx : Nat) : List Bool :=
  included.set idx (!(included.getD idx false))

/-- The state of a host window as far as the append command reads it: the
tracked prompt-view id stored in the window settings (line 306) and the
window's views, each an id with its current text. -/
structure SublimeWindow where
  promptId : Option Nat
  views : List (Nat × List Char)

/-- Outcome of `AddSelectionToPromptCommand.run`: the two non-fatal status
messages (`"LLM-Prompt: no active prompt."`, `"LLM-Prompt: nothing
selected."`) or a successful append. -/
inductive AppendStatus where
  | noActivePrompt
  | noSelection
  | appended
deriving DecidableEq

/-- The fenced block appended by `AddSelectionToPromptCommand`
(lines 319-322). -/
def additionalSelectionBlock (lang selText : List Char) : List Char :=
  "\n<file_contents path=\"<additional-selection>\">\n```".data ++ lang
    ++ "\n".data ++ selText ++ "\n```\n</file_contents>\n".data

/-- Model of `AddSelectionToPromptCommand.run` (lines 301-324): find the
first view whose id equals the tracked prompt id (`next(..., None)`); with
none, report and stop; with an empty selection list (all regions empty),
report and stop; otherwise append one fenced block to that view's text. -/
def addSelectionToPrompt (w : SublimeWindow) (regions : List (List Char))
    (lang : List Char) : AppendStatus × SublimeWindow :=
  match w.views.findIdx? (fun v => some v.1 = w.promptId) with
  | none => (.noActivePrompt, w)
  | some i =>
    let selections := regions.filter (· ≠ [])
    if selections = [] then (.noSelection, w)
    else
      let selText := List.intercalate "\n\n".data selections
      (.appended,
        { w with views := w.views.modify (fun v =>
            (v.1, v.2 ++ additionalSelectionBlock lang selText)) i })

/-- Setting an index back to the value it already holds is the identity. -/
theorem set_getD_self {α : Type} (l : List α) (i : Nat) (d : α) (h : i < l.length) :
    l.set i (l.getD i d) = l := by
  apply List.ext_getElem?
  intro j
  rcases eq_or_ne i j with rfl | hne
  · rw [List.getElem?_set_self (by simpa using h)]
    simp [List.getD_eq_getElem?_getD, List.getElem?_eq_getElem h]
  · rw [List.getElem?_set_ne hne]

/-- C9: toggling a row twice restores it, and a toggle touches no other
row and never changes the length of the inclusion list. -/
theorem picker_toggle_involutive (included : List Bool) (idx : Nat)
    (h : idx < included.length) :
    toggleIncluded (toggleIncluded included idx) idx = included
    ∧ (∀ j, j ≠ idx →
        (toggleIncluded included idx).getD j false = included.getD j false)
    ∧ (toggleIncluded included idx).length = included.length := by
  refine ⟨?_, ?_, by simp [toggleIncluded]⟩
  · have h1 : (included.set idx (!included.getD idx false)).getD idx false
        = !included.getD idx false := by
      simp [List.getD_eq_getElem?_getD, List.getElem?_set_self (by simpa using h)]
    unfold toggleIncluded
    rw [h1, Bool.not_not, List.set_set, set_getD_self _ _ _ h]
  · intro j hj
    unfold toggleIncluded
    simp [List.getD_eq_getElem?_getD, List.getElem?_set_ne (Ne.symm hj)]

/-- Witness for C9 at a concrete inclusion list and row. -/
theorem picker_toggle_involutive_witness :
    toggleIncluded (toggleIncluded [true, false, true] 1) 1 = [true, false, true]
    ∧ (toggleIncluded [true, false, true] 1).getD 0 false = true := by
  have h := picker_toggle_involutive [true, false, true] 1 (by decide)
  refine ⟨h.1, ?_⟩
  rw [h.2.1 0 (by decide)]
  decide

/-- C7: with no tracked prompt view the append command stops at the
`NoActivePrompt` status and mutates nothing; with a tracked view but an
empty selection it stops at the `NoSelection` status and mutates nothing;
otherwise it reports success, appends exactly the one
`<additional-selection>` fenced block to the end of the tracked view's
text, and leaves every other view and the view count unchanged. -/
theorem add_selection_spec (w : SublimeWindow) (regions : List (List Char))
    (lang : List Char) :
    (w.views.findIdx? (fun v => some v.1 = w.promptId) = none →
      addSelectionToPrompt w regions lang = (AppendStatus.noActivePrompt, w))
    ∧ (∀ i, w.views.findIdx? (fun v => some v.1 = w.promptId) = some i →
        regions.filter (· ≠ []) = [] →
        addSelectionToPrompt w regions lang = (AppendStatus.noSelection, w))
    ∧ (∀ i, w.views.findIdx? (fun v => some v.1 = w.promptId) = some i →
        regions.filter (· ≠ []) ≠ [] →
        (addSelectionToPrompt w regions lang).1 = AppendStatus.appended
        ∧ ((addSelectionToPrompt w regions lang).2.views[i]?.map Prod.snd
            = (w.views[i]?.map Prod.snd).map (fun t =>
                t ++ additionalSelectionBlock lang
                  (List.intercalate "\n\n".data (regions.filter (· ≠ [])))))
        ∧ (∀ j, j ≠ i →
            (addSelectionToPrompt w regions lang).2.views[j]? = w.views[j]?)
        ∧ (addSelectionToPrompt w regions lang).2.views.length
            = w.views.length) := by
  refine ⟨?_, ?_, ?_⟩
  · intro h
    simp [addSelectionToPrompt, h]
  · intro i hi hsel
    simp [addSelectionToPrompt, hi, hsel]
    rw [List.filter_eq_nil_iff] at hsel
    intro x hx
    simpa using hsel x hx
  · intro i hi hsel
    simp only [addSelectionToPrompt, hi]
    rw [if_neg hsel]
    refine ⟨rfl, ?_, ?_, by simp⟩
    · simp only [List.getElem?_modify_eq]
      cases w.views[i]? <;> simp
    · intro j hj
      simpa using List.getElem?_modify_ne _ w.views (Ne.symm hj)

/-- Witness for C7: a window tracking view 7 among two views; appending a
selection grows view 7's text by the fenced block and leaves view 3
alone, and the two failure cases report without mutation. -/
theorem add_selection_spec_witness :
    (addSelectionToPrompt ⟨some 7, [(3, "a".data), (7, "p".data)]⟩
        ["sel".data] "python".data).1 = AppendStatus.appended
    ∧ (addSelectionToPrompt ⟨some 7, [(3, "a".data), (7, "p".data)]⟩
        ["sel".data] "python".data).2.views[1]?.map Prod.snd
        = some ("p".data ++ additionalSelectionBlock "python".data "sel".data)
    ∧ addSelectionToPrompt ⟨none, [(3, "a".data)]⟩ ["sel".data] "python".data
        = (AppendStatus.noActivePrompt, ⟨none, [(3, "a".data)]⟩)
    ∧ addSelectionToPrompt ⟨some 3, [(3, "a".data)]⟩ [[]] "python".data
        = (AppendStatus.noSelection, ⟨some 3, [(3, "a".data)]⟩) := by
  have h1 := add_selection_spec ⟨some 7, [(3, "a".data), (7, "p".data)]⟩
    ["sel".data] "python".data
  have h2 := add_selection_spec ⟨none, [(3, "a".data)]⟩ ["sel".data] "python".data
  have h3 := add_selection_spec ⟨some 3, [(3, "a".data)]⟩ [[]] "python".data
  have e1 := h1.2.2 1 (by decide) (by decide)
  refine ⟨e1.1, ?_, h2.1 (by decide), h3.2.1 0 (by decide) (by decide)⟩
  rw [e1.2.1]
  decide

/-- Identifier set of the spec's worked example (snippet mentions `foo`
and `bar`). -/
def exampleIdents : List (List Char) := ["foo".data, "bar".data]

/-- Origin directory of the spec's worked example. -/
def exampleOrigin : List Char := "/proj".data

/-- Path of example file X, in the origin directory. -/
def examplePathX : List Char := "/proj/x.py".data

/-- Contents of example file X: exactly 1 KiB, `foo` three times and `bar`
once. -/
def exampleTxtX : List Char := "foo foo foo bar".data ++ List.replicate 1009 ' '

/-- Path of example file Y, in a different directory. -/
def examplePathY : List Char := "/lib/y.py".data

/-- Contents of example file Y: exactly 1 KiB, `foo` twice, no `bar`. -/
def exampleTxtY : List Char := "foo foo".data ++ List.replicate 1017 ' '

/-- File system of the worked example: both candidates readable. -/
def exampleFs : List Char → Option (List Char) := fun p =>
  if p = examplePathX then some exampleTxtX
  else if p = examplePathY then some exampleTxtY
  else none

set_option maxRecDepth 40000 in
/-- C1: the score is
`100*distinct_hits + 2*total_hits + same_dir_bonus - size_penalty`, and on
the spec's example file X (1 KiB, `foo` three times, `bar` once, same
directory) scores `100*2 + 2*4 + 20 - 1 = 227`, file Y (1 KiB, `foo`
twice, different directory) scores `100*1 + 2*2 - 1 = 103`, and X is
ranked before Y whichever order the candidates are discovered in. -/
theorem score_formula_and_example :
    (∀ idents originDir path txt,
      score idents originDir path txt =
        100 * distinct_hits idents txt + 2 * total_hits idents txt
          + (if dirname path = originDir then 20 else 0)
          - (txt.length : ℚ) / 1024)
    ∧ distinct_hits exampleIdents exampleTxtX = 2
    ∧ total_hits exampleIdents exampleTxtX = 4
    ∧ exampleTxtX.length = 1024
    ∧ dirname examplePathX = exampleOrigin
    ∧ score exampleIdents exampleOrigin examplePathX exampleTxtX = 227
    ∧ distinct_hits exampleIdents exampleTxtY = 1
    ∧ total_hits exampleIdents exampleTxtY = 2
    ∧ exampleTxtY.length = 1024
    ∧ dirname examplePathY ≠ exampleOrigin
    ∧ score exampleIdents exampleOrigin examplePathY exampleTxtY = 103
    ∧ rankCandidates exampleFs exampleIdents exampleOrigin
        [examplePathX, examplePathY]
        = [(examplePathX, 227, exampleTxtX), (examplePathY, 103, exampleTxtY)]
    ∧ rankCandidates exampleFs exampleIdents exampleOrigin
        [examplePathY, examplePathX]
        = [(examplePathX, 227, exampleTxtX), (examplePathY, 103, exampleTxtY)] := by
  have hdx : distinct_hits exampleIdents exampleTxtX = 2 := by decide
  have htx : total_hits exampleIdents exampleTxtX = 4 := by decide
  have hlx : exampleTxtX.length = 1024 := by decide
  have hdirx : dirname examplePathX = exampleOrigin := by decide
  have hdy : distinct_hits exampleIdents exampleTxtY = 1 := by decide
  have hty : total_hits exampleIdents exampleTxtY = 2 := by decide
  have hly : exampleTxtY.length = 1024 := by decide
  have hdiry : dirname examplePathY ≠ exampleOrigin := by decide
  have hx : score exampleIdents exampleOrigin examplePathX exampleTxtX = 227 := by
    rw [score, hdx, htx, hlx, if_pos hdirx]
    norm_num
  have hy : score exampleIdents exampleOrigin examplePathY exampleTxtY = 103 := by
    rw [score, hdy, hty, hly, if_neg hdiry]
    norm_num
  have ex : exampleFs examplePathX = some exampleTxtX := by
    simp [exampleFs]
  have ey : exampleFs examplePathY = some exampleTxtY := by
    rw [exampleFs, if_neg (by decide), if_pos rfl]
  refine ⟨fun idents originDir path txt => rfl, hdx, htx, hlx,
    hdirx, hx, hdy, hty, hly, hdiry, hy, ?_, ?_⟩
  · rw [rankCandidates, scoreCandidates]
    simp only [List.filterMap_cons, List.filterMap_nil, ex, ey]
    simp [List.mergeSort, List.splitInTwo, List.splitAt, List.splitAt.go,
      List.merge, hx, hy]
    norm_num
  · rw [rankCandidates, scoreCandidates]
    simp only [List.filterMap_cons, List.filterMap_nil, ex, ey]
    simp [List.mergeSort, List.splitInTwo, List.splitAt, List.splitAt.go,
      List.merge, hx, hy]
    norm_num

/-- C2: the ranked list is sorted by weakly descending score, it is a
permutation of the scored candidates (so sorting loses or invents
nothing), and any entry with a strictly greater score than another comes
strictly earlier, whatever the discovery order `paths` was. -/
theorem ranked_descending (fs : List Char → Option (List Char))
    (idents : List (List Char)) (originDir : List Char)
    (paths : List (List Char)) :
    (rankCandidates fs idents originDir paths).Pairwise
      (fun a b => b.2.1 ≤ a.2.1)
    ∧ (rankCandidates fs idents originDir paths).Perm
        (scoreCandidates fs idents originDir paths)
    ∧ ∀ (i j : Fin (rankCandidates fs idents originDir paths).length),
        (i : ℕ) < j
          ∨ ((rankCandidates fs idents originDir paths).get i).2.1
              ≤ ((rankCandidates fs idents originDir paths).get j).2.1 := by
  have hpair : (rankCandidates fs idents originDir paths).Pairwise
      (fun a b => b.2.1 ≤ a.2.1) := by
    have := @List.sorted_mergeSort (List Char × ℚ × List Char)
      (fun a b => decide (b.2.1 ≤ a.2.1))
      (fun a b c hab hbc => by
        simp only [decide_eq_true_eq] at *
        exact le_trans hbc hab)
      (fun a b => by
        simp only [Bool.or_eq_true, decide_eq_true_eq]
        exact le_total b.2.1 a.2.1)
      (scoreCandidates fs idents originDir paths)
    exact List.Pairwise.imp (by simp) this
  refine ⟨hpair, List.mergeSort_perm _ _, ?_⟩
  intro i j
  rcases lt_trichotomy (i : ℕ) (j : ℕ) with h | h | h
  · exact Or.inl h
  · right
    have : i = j := Fin.ext h
    rw [this]
  · right
    exact (List.pairwise_iff_get.mp hpair) j i (by omega)

/-- C6: a candidate that cannot be read never appears in the ranked list
(it is dropped, not scored as zero); a readable candidate still appears
even when other candidates fail (a per-file failure never aborts the
batch); when nothing is readable the ranked list is empty; and an empty
ranked list makes the generate operation proceed straight to composing the
prompt with zero related files. -/
theorem unreadable_candidates_excluded (fs : List Char → Option (List Char))
    (idents : List (List Char)) (originDir : List Char)
    (paths : List (List Char)) (selLang snippet projectRoot : List Char) :
    (∀ p, fs p = none →
      ∀ e ∈ rankCandidates fs idents originDir paths, e.1 ≠ p)
    ∧ (∀ p txt, p ∈ paths → fs p = some txt →
        (p, score idents originDir p txt, txt)
          ∈ rankCandidates fs idents originDir paths)
    ∧ ((∀ p ∈ paths, fs p = none) →
        rankCandidates fs idents originDir paths = [])
    ∧ (rankCandidates fs idents originDir paths = [] →
        generateAfterScoring selLang snippet idents projectRoot
          (rankCandidates fs idents originDir paths)
          = GenerateNext.composed
              (composePrompt selLang snippet [] idents projectRoot)) := by
  refine ⟨?_, ?_, ?_, ?_⟩
  · intro p hp e he
    rw [rankCandidates, List.mem_mergeSort, scoreCandidates,
      List.mem_filterMap] at he
    obtain ⟨q, hq, hfq⟩ := he
    cases h : fs q with
    | none => rw [h] at hfq; simp at hfq
    | some txt =>
      rw [h] at hfq
      have hfq2 : some (q, score idents originDir q txt, txt) = some e := hfq
      have he2 : (q, score idents originDir q txt, txt) = e := Option.some.inj hfq2
      intro hqp
      rw [← he2] at hqp
      have hqp2 : q = p := hqp
      rw [hqp2] at h
      rw [h] at hp
      exact Option.noConfusion hp
  · intro p txt hp hfp
    rw [rankCandidates, List.mem_mergeSort, scoreCandidates,
      List.mem_filterMap]
    exact ⟨p, hp, by rw [hfp]; rfl⟩
  · intro h
    rw [rankCandidates, scoreCandidates]
    have : paths.filterMap (fun p => (fs p).map (fun txt =>
        (p, score idents originDir p txt, txt))) = [] := by
      rw [List.filterMap_eq_nil_iff]
      intro p hp
      rw [h p hp]
      rfl
    rw [this, List.mergeSort_nil]
  · intro h
    rw [h, generateAfterScoring, if_pos rfl]

/-- Witness for C6: with every candidate unreadable the ranked list is
empty and generation still composes a prompt with no related files. -/
theorem unreadable_candidates_excluded_witness :
    rankCandidates (fun _ => none) ["foo".data] "/d".data ["/a.py".data] = []
    ∧ generateAfterScoring "python".data "foo".data ["foo".data] "/d".data
        (rankCandidates (fun _ => none) ["foo".data] "/d".data ["/a.py".data])
      = GenerateNext.composed
          (composePrompt "python".data "foo".data [] ["foo".data] "/d".data) := by
  have h := unreadable_candidates_excluded (fun _ => none) ["foo".data]
    "/d".data ["/a.py".data] "python".data "foo".data "/d".data
  have hempty := h.2.2.1 (fun p _ => rfl)
  exact ⟨hempty, h.2.2.2 hempty⟩

/-- Every run emitted by the tokenizer is a non-empty list of word
characters. -/
theorem wordRunsAux_sound (cs : List Char) : ∀ (acc : List Char),
    acc.all isWordChar = true →
    ∀ r ∈ wordRunsAux acc cs, r ≠ [] ∧ r.all isWordChar = true := by
  induction cs with
  | nil =>
    intro acc hacc r hr
    simp only [wordRunsAux] at hr
    split at hr
    · simp at hr
    · rename_i hne
      simp only [List.mem_singleton] at hr
      subst hr
      exact ⟨by simpa using hne, by simpa using hacc⟩
  | cons c cs ih =>
    intro acc hacc r hr
    simp only [wordRunsAux] at hr
    by_cases hw : isWordChar c
    · rw [if_pos hw] at hr
      exact ih (c :: acc) (by simp [List.all_cons, hw, hacc]) r hr
    · rw [if_neg hw] at hr
      by_cases hacc0 : acc = []
      · rw [if_pos hacc0] at hr
        exact ih [] rfl r hr
      · rw [if_neg hacc0] at hr
        rcases List.mem_cons.mp hr with rfl | hr2
        · exact ⟨by simpa using hacc0, by simpa using hacc⟩
        · exact ih [] rfl r hr2

/-- Structure of any token returned by the identifier extractor: not a
blacklisted keyword, not a pure digit token, and shaped `[A-Za-z_]`
followed by word characters. -/
theorem mem_extractIdentifiers (code t : List Char)
    (ht : t ∈ extractIdentifiers code) :
    (∀ k ∈ blacklist, t ≠ k) ∧ pyIsDigit t = false
    ∧ t ≠ [] ∧ isIdentStart (t.getD 0 ' ') = true ∧ t.all isWordChar = true := by
  rw [extractIdentifiers, List.mem_filter] at ht
  obtain ⟨ht1, ht2⟩ := ht
  rw [List.mem_dedup, List.mem_filter] at ht1
  obtain ⟨hruns, hhead⟩ := ht1
  have hsound := wordRunsAux_sound code [] rfl t hruns
  simp only [Bool.and_eq_true, decide_eq_true_eq, Bool.not_eq_true'] at ht2
  exact ⟨fun k hk hek => ht2.1 (hek ▸ hk), ht2.2, hsound.1, hhead, hsound.2⟩

/-- C8: every identifier the extractor returns differs from each
blacklisted keyword, is not a purely numeric token, and matches the token
pattern: a letter or underscore followed by letters, digits or
underscores. -/
theorem extracted_identifiers_wellformed (code t : List Char)
    (ht : t ∈ extractIdentifiers code) :
    (∀ k ∈ blacklist, t ≠ k)
    ∧ pyIsDigit t = false
    ∧ t ≠ [] ∧ isIdentStart (t.getD 0 ' ') = true
    ∧ t.all isWordChar = true :=
  mem_extractIdentifiers code t ht

/-- Witness for C8 on a concrete snippet. -/
theorem extracted_identifiers_wellformed_witness :
    "foo".data ∈ extractIdentifiers "if foo(1)".data
    ∧ (∀ k ∈ blacklist, "foo".data ≠ k)
    ∧ isIdentStart ("foo".data.getD 0 ' ') = true := by
  have hm : "foo".data ∈ extractIdentifiers "if foo(1)".data := by decide
  have h := extracted_identifiers_wellformed "if foo(1)".data "foo".data hm
  exact ⟨hm, h.1, h.2.2.2.1⟩

/-- For the empty identifier the pattern degenerates to `\b\b`, a word
boundary test at the current position. -/
theorem matchHere_nil (prevWord : Bool) (suffix : List Char) :
    matchHere [] prevWord suffix = (prevWord != isWordChar (suffix.getD 0 ' ')) := by
  simp [matchHere]

/-- Mid-run, the tokenizer emits the pending run and then the runs of the
rest of the text. -/
theorem wordRunsAux_length_cont (cs : List Char) : ∀ acc : List Char, acc ≠ [] →
    (wordRunsAux acc cs).length
      = 1 + (wordRunsAux [] (cs.dropWhile isWordChar)).length := by
  induction cs with
  | nil =>
    intro acc hacc
    simp [wordRunsAux, hacc]
  | cons c cs ih =>
    intro acc hacc
    by_cases hw : isWordChar c
    · simp only [wordRunsAux, if_pos hw]
      rw [ih (c :: acc) (by simp), List.dropWhile_cons, if_pos hw]
    · simp only [wordRunsAux, if_neg hw, if_neg hacc]
      rw [List.dropWhile_cons, if_neg hw]
      have hred : wordRunsAux [] (c :: cs) = wordRunsAux [] cs := by
        simp [wordRunsAux, hw]
      rw [hred, List.length_cons]
      omega

/-- Run count after a leading word character. -/
theorem wordRuns_cons_word (c : Char) (cs : List Char)
    (hw : isWordChar c = true) :
    (wordRuns (c :: cs)).length
      = 1 + (wordRuns (cs.dropWhile isWordChar)).length := by
  rw [wordRuns, wordRuns]
  simp only [wordRunsAux, if_pos hw]
  exact wordRunsAux_length_cont cs [c] (by simp)

/-- A leading non-word character contributes no run. -/
theorem wordRuns_cons_nonword (c : Char) (cs : List Char)
    (hw : ¬ isWordChar c = true) :
    wordRuns (c :: cs) = wordRuns cs := by
  simp [wordRuns, wordRunsAux, hw]

/-- The scan of `\b\b` counts every word-boundary position: twice the
number of maximal word-character runs when starting outside a word, one
more boundary when starting inside one. -/
theorem findallCount_empty_ident (l : List Char) :
    findallCountAux [] false l = 2 * (wordRuns l).length
    ∧ findallCountAux [] true l
        = 2 * (wordRuns (l.dropWhile isWordChar)).length + 1 := by
  induction l with
  | nil =>
    have hsp : isWordChar ' ' = false := by decide
    constructor <;>
      simp [findallCountAux, matchHere_nil, wordRuns, wordRunsAux, hsp]
  | cons c cs ih =>
    have hm0 : matchHere [] false (c :: cs) = isWordChar c := by
      rw [matchHere_nil]
      simp
    have hm1 : matchHere [] true (c :: cs) = !(isWordChar c) := by
      rw [matchHere_nil]
      simp
    by_cases hw : isWordChar c = true
    · constructor
      · have hstep : findallCountAux [] false (c :: cs)
            = 1 + findallCountAux [] true cs := by
          show (if matchHere [] false (c :: cs) then 1 else 0)
              + findallCountAux [] (isWordChar c) cs
            = 1 + findallCountAux [] true cs
          rw [hm0, hw]
          simp
        rw [hstep, ih.2, wordRuns_cons_word c cs hw]
        omega
      · have hstep : findallCountAux [] true (c :: cs)
            = findallCountAux [] true cs := by
          show (if matchHere [] true (c :: cs) then 1 else 0)
              + findallCountAux [] (isWordChar c) cs
            = findallCountAux [] true cs
          rw [hm1, hw]
          simp
        rw [hstep, ih.2, List.dropWhile_cons, if_pos hw]
    · have hw' : isWordChar c = false := by simpa using hw
      constructor
      · have hstep : findallCountAux [] false (c :: cs)
            = findallCountAux [] false cs := by
          show (if matchHere [] false (c :: cs) then 1 else 0)
              + findallCountAux [] (isWordChar c) cs
            = findallCountAux [] false cs
          rw [hm0, hw']
          simp
        rw [hstep, ih.1, wordRuns_cons_nonword c cs hw]
      · have hstep : findallCountAux [] true (c :: cs)
            = 1 + findallCountAux [] false cs := by
          show (if matchHere [] true (c :: cs) then 1 else 0)
              + findallCountAux [] (isWordChar c) cs
            = 1 + findallCountAux [] false cs
          rw [hm1, hw']
          simp
        rw [hstep, ih.1, List.dropWhile_cons, if_neg hw,
          wordRuns_cons_nonword c cs hw]
        omega

/-- A text has a word-boundary (so a run) exactly when it has a word
character. -/
theorem wordRuns_pos (l : List Char) :
    0 < (wordRuns l).length ↔ l.any isWordChar = true := by
  induction l with
  | nil => simp [wordRuns, wordRunsAux]
  | cons c cs ih =>
    by_cases hw : isWordChar c = true
    · rw [wordRuns_cons_word c cs hw]
      simp [List.any_cons, hw]
    · rw [wordRuns_cons_nonword c cs hw]
      simp only [List.any_cons, Bool.or_eq_true]
      constructor
      · intro h
        exact Or.inr (ih.mp h)
      · rintro (h | h)
        · exact absurd h hw
        · exact ih.mpr h

/-- Searching for the empty identifier succeeds exactly on texts containing
a word character. -/
theorem reSearch_empty_ident (txt : List Char) :
    reSearch [] txt = txt.any isWordChar := by
  rw [reSearch, countOccurrences, (findallCount_empty_ident txt).1]
  by_cases h : txt.any isWordChar = true
  · have hpos := (wordRuns_pos txt).mpr h
    rw [h]
    simp only [decide_eq_true_eq]
    omega
  · have h' : txt.any isWordChar = false := by simpa using h
    have hz : (wordRuns txt).length = 0 := by
      by_contra hne
      exact h ((wordRuns_pos txt).mp (Nat.pos_of_ne_zero hne))
    rw [h', hz]
    decide

/-- C3 (amended): with no extracted identifiers, `run` does substitute the
singleton `{""}` set; under it a readable file scores `distinct_hits = 1`
exactly when its text contains at least one word character (0 otherwise,
not always 1), and `total_hits` is the number of word-boundary positions,
i.e. twice the number of maximal word-character runs (not 1). -/
theorem empty_identifier_fallback (code txt : List Char)
    (h : extractIdentifiers code = []) :
    identifiersWithFallback code = [[]]
    ∧ distinct_hits [[]] txt = (if txt.any isWordChar then 1 else 0)
    ∧ total_hits [[]] txt = 2 * (wordRuns txt).length := by
  refine ⟨by simp [identifiersWithFallback, h], ?_, ?_⟩
  · rw [distinct_hits]
    simp only [List.filter_cons, List.filter_nil]
    rw [reSearch_empty_ident]
    by_cases ha : txt.any isWordChar
    · simp [ha]
    · simp [ha]
  · rw [total_hits]
    simp only [List.map_cons, List.map_nil, List.sum_cons, List.sum_nil]
    rw [countOccurrences, (findallCount_empty_ident txt).1]
    omega

/-- C3 counterexample: under the `{""}` fallback a plain two-word file has
total occurrence count 4 (so contribution `2*4 = 8`), not a single hit,
and a file with no word characters has `distinct_hits = 0`, not 1. -/
theorem empty_identifier_fallback_counterexample :
    identifiersWithFallback "+ - *".data = [[]]
    ∧ distinct_hits [[]] "".data = 0
    ∧ total_hits [[]] "a b".data = 4 := by decide

/-- Witness for the amended C3 at a concrete snippet and file. -/
theorem empty_identifier_fallback_witness :
    identifiersWithFallback "- -".data = [[]]
    ∧ distinct_hits [[]] "x y".data = (if ("x y".data.any isWordChar) then 1 else 0)
    ∧ total_hits [[]] "x y".data = 2 * (wordRuns "x y".data).length :=
  empty_identifier_fallback "- -".data "x y".data (by decide)

/-- Adding exactly one occurrence of one identifier of a duplicate-free
identifier set raises the occurrence sum by exactly one. -/
theorem total_hits_add_one (txt txt' ident : List Char) :
    ∀ idents : List (List Char), idents.Nodup → ident ∈ idents →
    countOccurrences ident txt' = countOccurrences ident txt + 1 →
    (∀ j ∈ idents, j ≠ ident →
      countOccurrences j txt' = countOccurrences j txt) →
    total_hits idents txt' = total_hits idents txt + 1 := by
  intro idents
  induction idents with
  | nil =>
    intro _ h
    simp at h
  | cons a l ih =>
    intro hnd hmem hplus hoth
    simp only [total_hits, List.map_cons, List.sum_cons]
    rcases List.mem_cons.mp hmem with rfl | hmem2
    · have hl : l.map (fun j => countOccurrences j txt')
          = l.map (fun j => countOccurrences j txt) := by
        apply List.map_congr_left
        intro j hj
        exact hoth j (List.mem_cons_of_mem _ hj)
          (fun hje => (List.nodup_cons.mp hnd).1 (hje ▸ hj))
      rw [hplus, hl]
      omega
    · have ha : countOccurrences a txt' = countOccurrences a txt := by
        apply hoth a (List.mem_cons_self a l)
        intro hae
        exact (List.nodup_cons.mp hnd).1 (hae.symm ▸ hmem2)
      have hrec := ih (List.nodup_cons.mp hnd).2 hmem2 hplus
        (fun j hj hne => hoth j (List.mem_cons_of_mem _ hj) hne)
      simp only [total_hits] at hrec
      rw [ha, hrec]
      omega

/-- The distinct-hit count only depends on which identifiers match. -/
theorem distinct_hits_congr (txt txt' : List Char) (idents : List (List Char))
    (h : ∀ j ∈ idents, reSearch j txt' = reSearch j txt) :
    distinct_hits idents txt' = distinct_hits idents txt := by
  simp only [distinct_hits]
  rw [List.filter_congr h]

/-- A first match for one identifier of a duplicate-free set raises the
distinct-hit count by exactly one. -/
theorem distinct_hits_add_one (txt txt' ident : List Char) :
    ∀ idents : List (List Char), idents.Nodup → ident ∈ idents →
    reSearch ident txt = false → reSearch ident txt' = true →
    (∀ j ∈ idents, j ≠ ident → reSearch j txt' = reSearch j txt) →
    distinct_hits idents txt' = distinct_hits idents txt + 1 := by
  intro idents
  induction idents with
  | nil =>
    intro _ h
    simp at h
  | cons a l ih =>
    intro hnd hmem hf ht hoth
    simp only [distinct_hits, List.filter_cons]
    rcases List.mem_cons.mp hmem with rfl | hmem2
    · have hl : l.filter (fun j => reSearch j txt')
          = l.filter (fun j => reSearch j txt) := by
        apply List.filter_congr
        intro j hj
        exact hoth j (List.mem_cons_of_mem _ hj)
          (fun hje => (List.nodup_cons.mp hnd).1 (hje ▸ hj))
      rw [ht, hf, hl]
      simp
    · have ha : reSearch a txt' = reSearch a txt := by
        apply hoth a (List.mem_cons_self a l)
        intro hae
        exact (List.nodup_cons.mp hnd).1 (hae.symm ▸ hmem2)
      have hrec := ih (List.nodup_cons.mp hnd).2 hmem2 hf ht
        (fun j hj hne => hoth j (List.mem_cons_of_mem _ hj) hne)
      simp only [distinct_hits] at hrec
      rw [ha]
      cases hpa : reSearch a txt with
      | false => simp [hrec]
      | true => simp [hrec]

/-- C4 (amended): with a duplicate-free identifier set, adding one more
occurrence of an already-matched identifier leaves `distinct_hits`
unchanged and raises `total_hits` by one (contribution `+2`); a first
occurrence of a previously-unmatched identifier raises the hits
contribution `100*distinct + 2*total` by exactly 102, while the full score
changes by `102` minus the added text length in KiB (the size penalty
grows with the text, so the score rises by less than 102). -/
theorem score_increment (idents : List (List Char)) (originDir path : List Char)
    (ident txt txt' : List Char)
    (hnd : idents.Nodup) (hmem : ident ∈ idents)
    (hplus : countOccurrences ident txt' = countOccurrences ident txt + 1)
    (hoth : ∀ j ∈ idents, j ≠ ident →
      countOccurrences j txt' = countOccurrences j txt) :
    (0 < countOccurrences ident txt →
      distinct_hits idents txt' = distinct_hits idents txt
      ∧ total_hits idents txt' = total_hits idents txt + 1)
    ∧ (countOccurrences ident txt = 0 →
      100 * distinct_hits idents txt' + 2 * total_hits idents txt'
        = 100 * distinct_hits idents txt + 2 * total_hits idents txt + 102
      ∧ score idents originDir path txt'
          = score idents originDir path txt + 102
            - ((txt'.length : ℚ) - (txt.length : ℚ)) / 1024) := by
  have htot := total_hits_add_one txt txt' ident idents hnd hmem hplus hoth
  constructor
  · intro hpos
    refine ⟨?_, htot⟩
    apply distinct_hits_congr
    intro j hj
    by_cases hje : j = ident
    · subst hje
      have h2 : 0 < countOccurrences j txt' := by omega
      simp [reSearch, hpos, h2]
    · rw [reSearch, reSearch, hoth j hj hje]
  · intro hzero
    have hf : reSearch ident txt = false := by simp [reSearch, hzero]
    have ht : reSearch ident txt' = true := by
      simp only [reSearch, hplus, hzero, decide_eq_true_eq]
      omega
    have hd := distinct_hits_add_one txt txt' ident idents hnd hmem hf ht
      (fun j hj hne => by rw [reSearch, reSearch, hoth j hj hne])
    constructor
    · rw [hd, htot]
      ring
    · rw [score, score, hd, htot]
      push_cast
      ring

/-- C4 counterexample: the claim's "increases the resulting score by
exactly 102" fails, because adding the occurrence lengthens the file and
so grows the size penalty: here the score rises by `102 - 3/1024`. -/
theorem score_increment_counterexample :
    countOccurrences "foo".data [] = 0
    ∧ countOccurrences "foo".data "foo".data
        = countOccurrences "foo".data [] + 1
    ∧ score ["foo".data] "/d".data "/x".data "foo".data
        - score ["foo".data] "/d".data "/x".data [] ≠ 102 := by
  refine ⟨by decide, by decide, ?_⟩
  have h1 : distinct_hits ["foo".data] "foo".data = 1 := by decide
  have h2 : total_hits ["foo".data] "foo".data = 1 := by decide
  have h3 : distinct_hits ["foo".data] ([] : List Char) = 0 := by decide
  have h4 : total_hits ["foo".data] ([] : List Char) = 0 := by decide
  have h5 : dirname "/x".data ≠ "/d".data := by decide
  have h6 : "foo".data.length = 3 := by decide
  have h7 : ([] : List Char).length = 0 := rfl
  rw [score, score, h1, h2, h3, h4, h6, h7, if_neg h5]
  norm_num

/-- Witness for the amended C4: the first `foo` occurrence raises the hits
contribution by exactly 102. -/
theorem score_increment_witness :
    100 * distinct_hits ["foo".data] "foo".data
      + 2 * total_hits ["foo".data] "foo".data
    = 100 * distinct_hits ["foo".data] ([] : List Char)
      + 2 * total_hits ["foo".data] ([] : List Char) + 102 :=
  ((score_increment ["foo".data] "/d".data "/x".data "foo".data [] "foo".data
    (by decide) (by decide) (by decide)
    (fun j hj hne => absurd (by simpa using hj) hne)).2 (by decide)).1

/-- Updating the empty-string entry of a definition map changes no
non-empty key. -/
theorem filter_nonempty_map_update (e : List Char × List Char) (d : DefMap) :
    ((d.map (fun kv => if kv.1 = [] then (kv.1, kv.2 ++ [e]) else kv)).filter
        (fun kv => kv.1 ≠ [])).map Prod.fst
      = (d.filter (fun kv => kv.1 ≠ [])).map Prod.fst := by
  induction d with
  | nil => rfl
  | cons kv rest ih =>
    by_cases hk : kv.1 = []
    · simp [hk]
      simpa using ih
    · simp [hk]
      simpa using ih

/-- The function-recording fold of `_extract_definitions` adds entries only
under the empty-string key: the non-empty keys are unchanged. -/
theorem nonempty_keys_of_funcs_fold (funcs : List (List Char × List Char)) :
    ∀ d : DefMap,
    ((funcs.foldl (fun d f =>
        if d.any (fun kv => kv.1 = f.1) then d
        else dictAppendFunc d f.1 f.2) d).filter
      (fun kv => kv.1 ≠ [])).map Prod.fst
    = (d.filter (fun kv => kv.1 ≠ [])).map Prod.fst := by
  induction funcs with
  | nil => intro d; rfl
  | cons f fs ih =>
    intro d
    rw [List.foldl_cons, ih]
    by_cases hin : d.any (fun kv => kv.1 = f.1)
    · rw [if_pos hin]
    · rw [if_neg hin, dictAppendFunc]
      by_cases hemp : d.any (fun kv => kv.1 = [])
      · rw [if_pos hemp]
        exact filter_nonempty_map_update _ d
      · rw [if_neg hemp]
        simp [List.filter_append]

/-- The Python-family class pattern yields no name or a single non-empty
name. -/
theorem pyClassKeys_shape (txt : List Char) :
    pyClassKeys txt = [] ∨ ∃ nm, nm ≠ [] ∧ pyClassKeys txt = [nm] := by
  simp only [pyClassKeys]
  split
  · split
    · split
      · rename_i h
        exact Or.inr ⟨_, h, rfl⟩
      · exact Or.inl rfl
    · exact Or.inl rfl
  · exact Or.inl rfl

/-- The class-recording fold keeps exactly the matched class names as
non-empty keys. -/
theorem pyClassFold (txt : List Char) :
    (((pyClassKeys txt).foldl dictSetdefaultEmpty []).filter
        (fun kv => kv.1 ≠ [])).map Prod.fst = pyClassKeys txt := by
  rcases pyClassKeys_shape txt with h | ⟨nm, hnm, h⟩
  · rw [h]
    rfl
  · rw [h]
    simp [dictSetdefaultEmpty, hnm]

/-- In the `"python"` dispatch `_extract_definitions` scans functions with
the line-anchored `def` pattern over the class map started from
`pyClassKeys`. -/
theorem extractDefinitions_python (txt : List Char) :
    extractDefinitions txt "python"
      = (finditer (pyFuncStep txt) txt.length).foldl (fun d f =>
          if d.any (fun kv => kv.1 = f.1) then d
          else dictAppendFunc d f.1 f.2)
          ((pyClassKeys txt).foldl dictSetdefaultEmpty []) := rfl

/-- C5 (amended): the class pattern is compiled without `re.M`, so its `^`
anchors at the start of the text, not of every line: exactly the class
names of `pyClassKeys` — a single `class` preceded only by whitespace at
the very start of the text, if any — become non-empty keys of the map
(hence at most one class key), while every matched `def` whose name is not
a recorded class name lands under the empty-string key; the spec's example
`class Foo:` + `def bar(self, x):`, whose class is at the start of the
text, still yields exactly `{"Foo": [], "": [("bar", "(self, x)")]}`, and
the `"ruby"` dispatch behaves identically. -/
theorem extract_definitions_python_classes :
    extractDefinitions "class Foo:\ndef bar(self, x):\n".data "python"
      = [("Foo".data, []), ([], [("bar".data, "(self, x)".data)])]
    ∧ (∀ txt, ((extractDefinitions txt "python").filter
          (fun kv => kv.1 ≠ [])).map Prod.fst = pyClassKeys txt)
    ∧ (∀ txt, ((extractDefinitions txt "python").filter
          (fun kv => kv.1 ≠ [])).length ≤ 1)
    ∧ (∀ txt, extractDefinitions txt "ruby" = extractDefinitions txt "python") := by
  have hmain : ∀ txt, ((extractDefinitions txt "python").filter
      (fun kv => kv.1 ≠ [])).map Prod.fst = pyClassKeys txt := by
    intro txt
    rw [extractDefinitions_python, nonempty_keys_of_funcs_fold]
    exact pyClassFold txt
  refine ⟨by decide, hmain, ?_, fun txt => rfl⟩
  intro txt
  have hlen : ((extractDefinitions txt "python").filter
      (fun kv => kv.1 ≠ [])).length = (pyClassKeys txt).length := by
    rw [← hmain txt, List.length_map]
  rw [hlen]
  rcases pyClassKeys_shape txt with h | ⟨nm, _, h⟩ <;> simp [h]

/-- C5 counterexample: with a non-whitespace first line, `class Foo` at
the start of the second line is NOT recorded as a key — the resulting map
has only the empty-string entry. -/
theorem extract_definitions_python_counterexample :
    extractDefinitions "x = 1\nclass Foo:\ndef bar(self, x):\n".data "python"
      = [([], [("bar".data, "(self, x)".data)])]
    ∧ (extractDefinitions "x = 1\nclass Foo:\ndef bar(self, x):\n".data
        "python").any (fun kv => kv.1 = "Foo".data) = false := by decide

/-- Shape of every line the overview loop emits: a class line for a class
name in the identifier set, a member line, or a free-function line whose
name is in the identifier set. -/
theorem overviewLines_mem (idents : List (List Char))
    (related : List (List Char × List Char)) (projectRoot line : List Char)
    (hline : line ∈ overviewLines related idents projectRoot) :
    (∃ cls rel, cls ∈ idents ∧ cls ≠ []
        ∧ line = "- class ".data ++ cls ++ "  ←  ".data ++ rel)
    ∨ (∃ nm sig, line = "  • ".data ++ nm ++ sig)
    ∨ (∃ nm sig rel, nm ∈ idents
        ∧ line = "- function ".data ++ nm ++ sig ++ "  ←  ".data ++ rel) := by
  rw [overviewLines, List.mem_flatMap] at hline
  obtain ⟨pt, _, hline⟩ := hline
  dsimp only at hline
  by_cases hdefs : extractDefinitions pt.2 (syntaxFromExtension pt.1) = []
  · rw [if_pos hdefs] at hline
    simp at hline
  · rw [if_neg hdefs, List.mem_flatMap] at hline
    obtain ⟨cm, _, hline⟩ := hline
    by_cases h1 : cm.1 ≠ [] ∧ cm.1 ∉ idents
    · rw [if_pos h1] at hline
      simp at hline
    · rw [if_neg h1] at hline
      by_cases h2 : cm.1 ≠ []
      · rw [if_pos h2] at hline
        rcases List.mem_cons.mp hline with rfl | hline2
        · left
          refine ⟨cm.1, relpath pt.1 projectRoot, ?_, h2, rfl⟩
          rcases not_and_or.mp h1 with h | h
          · exact absurd h2 h
          · exact not_not.mp h
        · right
          left
          rw [List.mem_map] at hline2
          obtain ⟨ns, _, hns⟩ := hline2
          exact ⟨ns.1, ns.2, hns.symm⟩
      · rw [if_neg h2, List.mem_filterMap] at hline
        obtain ⟨ns, _, hline⟩ := hline
        by_cases h3 : ns.1 ∈ idents
        · rw [if_pos h3] at hline
          right
          right
          exact ⟨ns.1, ns.2, relpath pt.1 projectRoot, h3,
            (Option.some.inj hline).symm⟩
        · rw [if_neg h3] at hline
          exact absurd hline (by simp)

/-- C10: the identifier set the generate operation passes to the composer
(after the `{""}` fallback) never contains a blacklisted keyword; every
overview line is a class line (class name in the identifier set), a member
line, or a free-function line whose name is in the identifier set — hence
no `<overview>` block ever lists a blacklisted keyword as a free function —
even though the brace-family function pattern happily matches the
keyword-led `if (cond)` as a (name, args) pair. -/
theorem overview_never_lists_keywords (snippet : List Char) :
    (∀ k ∈ blacklist, k ∉ identifiersWithFallback snippet)
    ∧ (∀ related projectRoot line,
        line ∈ overviewLines related (identifiersWithFallback snippet)
          projectRoot →
        (∃ cls rel, cls ∈ identifiersWithFallback snippet ∧ cls ≠ []
            ∧ line = "- class ".data ++ cls ++ "  ←  ".data ++ rel)
        ∨ (∃ nm sig, line = "  • ".data ++ nm ++ sig)
        ∨ (∃ nm sig rel, nm ∈ identifiersWithFallback snippet
            ∧ nm ∉ blacklist
            ∧ line = "- function ".data ++ nm ++ sig ++ "  ←  ".data ++ rel))
    ∧ extractDefinitions "if (cond)".data "javascript"
        = [([], [("if".data, "(cond)".data)])] := by
  have hbl : ∀ k ∈ blacklist, k ∉ identifiersWithFallback snippet := by
    intro k hk hmem
    simp only [identifiersWithFallback] at hmem
    by_cases he : extractIdentifiers snippet = []
    · rw [if_pos he] at hmem
      have hne : ∀ k ∈ blacklist, k ≠ ([] : List Char) := by decide
      simp only [List.mem_singleton] at hmem
      exact hne k hk hmem
    · rw [if_neg he] at hmem
      exact (mem_extractIdentifiers snippet k hmem).1 k hk rfl
  refine ⟨hbl, ?_, by decide⟩
  intro related projectRoot line hline
  rcases overviewLines_mem (identifiersWithFallback snippet) related
      projectRoot line hline with h | h | ⟨nm, sig, rel, hnm, hl⟩
  · exact Or.inl h
  · exact Or.inr (Or.inl h)
  · refine Or.inr (Or.inr ⟨nm, sig, rel, hnm, ?_, hl⟩)
    intro hnb
    exact hbl nm hnb hnm

/-- Witness for C10: on the snippet `foo`, the keyword `if` is not an
identifier, and the free-function line the overview emits for
`def foo(x):` is characterized with `foo` in the identifier set. -/
theorem overview_never_lists_keywords_witness :
    "if".data ∉ identifiersWithFallback "foo".data
    ∧ ((∃ cls rel, cls ∈ identifiersWithFallback "foo".data ∧ cls ≠ []
          ∧ "- function foo(x)  ←  a.py".data
              = "- class ".data ++ cls ++ "  ←  ".data ++ rel)
       ∨ (∃ nm sig, "- function foo(x)  ←  a.py".data
              = "  • ".data ++ nm ++ sig)
       ∨ (∃ nm sig rel, nm ∈ identifiersWithFallback "foo".data
            ∧ nm ∉ blacklist
            ∧ "- function foo(x)  ←  a.py".data
                = "- function ".data ++ nm ++ sig ++ "  ←  ".data ++ rel)) := by
  have h := overview_never_lists_keywords "foo".data
  refine ⟨h.1 "if".data (by decide), ?_⟩
  exact h.2.1 [("/p/a.py".data, "def foo(x):\n".data)] "/p".data
    "- function foo(x)  ←  a.py".data (by decide)

